import Mathlib

/-!
Verification of the counting routines of the `code_review1` notebook.

The notebook generates a list of `(journal, year)` pairs and counts, for each
year in `range(2000, 2018+1)`, how many pairs carry that year.  Four variants
of the counting routine are embedded below, each translated from its source
cell; Python dicts are modelled as association lists preserving insertion
order, `defaultdict(lambda:0)` access is modelled by `ddAccess`, and a
`KeyError` raised by a plain-dict lookup is modelled as `none`.
-/

/-- A record of the notebook's data: a `(journal label, year)` pair. -/
abbrev JRecord := String × Int

/-- A Python dict from year to count, as an association list in insertion
order.  All operations below keep keys unique. -/
abbrev YDict := List (Int × Nat)

/-- Python dict lookup `d[k]`: `none` models a `KeyError`. -/
def dictGet (d : YDict) (k : Int) : Option Nat :=
  match d with
  | [] => none
  | (k2, v) :: rest => if k2 = k then some v else dictGet rest k

/-- Python dict assignment `d[k] = v`: replaces the stored value in place when
the key is present and appends the new entry otherwise. -/
def dictSet (d : YDict) (k : Int) (v : Nat) : YDict :=
  match d with
  | [] => [(k, v)]
  | (k2, v2) :: rest => if k2 = k then (k, v) :: rest else (k2, v2) :: dictSet rest k v

/-- The keys of a dict, in insertion order. -/
def dictKeys (d : YDict) : List Int := d.map (fun e => e.1)

/-- Key access `d[k]` on `defaultdict(lambda:0)`: returns the stored value,
inserting the default `0` first when the key is missing. -/
def ddAccess (d : YDict) (k : Int) : YDict × Nat :=
  match dictGet d k with
  | some v => (d, v)
  | none => (d ++ [(k, 0)], 0)

/-- One draw of `random.choice("ABCD")`, from a raw random value `r`. -/
def randChoiceABCD (r : Nat) : Char := (['A', 'B', 'C', 'D']).getD (r % 4) 'A'

/-- `generateJournalNames(n)` from the notebook: `n` strings, each built from
three draws of `random.choice("ABCD")`; `s` is the stream of raw draws. -/
def generateJournalNames (s : Nat → Nat) (n : Nat) : List String :=
  (List.range n).map (fun i =>
    String.mk ((List.range 3).map (fun j => randChoiceABCD (s (3 * i + j)))))

/-- `generateYears(n)` from the notebook: `n` draws of
`np.random.choice(range(2000, 2018))`; `t` is the stream of raw draws. -/
def generateYears (t : Nat → Nat) (n : Nat) : List Int :=
  (List.range n).map (fun i => 2000 + ((t i % 18 : Nat) : Int))

/-- `generateData(n)` from the notebook: zips the generated journal names with
the generated years. -/
def generateData (s t : Nat → Nat) (n : Nat) : List JRecord :=
  List.zip (generateJournalNames s n) (generateYears t n)

/-- The aggregation key range `range(2000, 2018+1)` of the notebook. -/
def yearsRange : List Int := (List.range 19).map (fun i => ((2000 + i : Nat) : Int))

/-- Counting core of `generateDictInefficient`: the nested loop
`for year in range(2000, 2018+1): yearDict[year]; for pair in journal_year:
if year == int(pair[1]): yearDict[year] += 1` over a `defaultdict(lambda:0)`,
with the internally generated data as the parameter.  Timing and printing are
omitted. -/
def generateDictInefficientCore (journal_year : List JRecord) : YDict :=
  yearsRange.foldl
    (fun yearDict year =>
      journal_year.foldl
        (fun yd pair =>
          if year = pair.2 then
            let a := ddAccess yd year
            dictSet a.1 year (a.2 + 1)
          else yd)
        (ddAccess yearDict year).1)
    []

/-- Counting core of `generateDictEfficient1`: the dictionary comprehension
`{y: data_years.count(y) for y in all_years}` where
`data_years = [pair[1] for pair in journal_year]` and
`all_years = [i for i in range(2000, 2019)]` (the same key range). -/
def generateDictEfficient1Core (journal_year : List JRecord) : YDict :=
  let data_years := journal_year.map (fun pair => pair.2)
  yearsRange.map (fun y => (y, data_years.count y))

/-- `getUpdateValue(x, yearDict)` from the notebook: reads the current count
for `x`'s year (`yearDict[year]` on a plain dict, so a missing key is a
`KeyError`, modelled as `none`) and returns the one-entry update dict
`{year: value+1}`. -/
def getUpdateValue (x : JRecord) (yearDict : YDict) : Option (Int × Nat) :=
  match dictGet yearDict x.2 with
  | none => none
  | some value => some (x.2, value + 1)

/-- The initial dict `{y: 0 for y in range(2000, 2018+1)}` of the two
plain-dict variants. -/
def initDict : YDict := yearsRange.map (fun y => (y, 0))

/-- The record-processing comprehension of `generateDictEfficient2`:
`[yearDict.update(getUpdateValue(x, yearDict)) for x in journal_year]`,
threading the mutated dict; `none` models the `KeyError` escaping from
`getUpdateValue`. -/
def eff2Loop (journal_year : List JRecord) (yearDict : YDict) : Option YDict :=
  match journal_year with
  | [] => some yearDict
  | x :: rest =>
    match getUpdateValue x yearDict with
    | none => none
    | some kv => eff2Loop rest (dictSet yearDict kv.1 kv.2)

/-- Counting core of `generateDictEfficient2`: the comprehension above run on
the freshly initialised dict. -/
def generateDictEfficient2Core (journal_year : List JRecord) : Option YDict :=
  eff2Loop journal_year initDict

/-- The single loop of `generateDictEfficientFor`:
`for jy in journal_year: yearDict[jy[1]] += 1` on a plain dict; a missing key
is a `KeyError`, modelled as `none`. -/
def effForLoop (journal_year : List JRecord) (yearDict : YDict) : Option YDict :=
  match journal_year with
  | [] => some yearDict
  | jy :: rest =>
    match dictGet yearDict jy.2 with
    | none => none
    | some v => effForLoop rest (dictSet yearDict jy.2 (v + 1))

/-- Counting core of `generateDictEfficientFor`. -/
def generateDictEfficientForCore (journal_year : List JRecord) : Option YDict :=
  effForLoop journal_year initDict

/-- `generateDictInefficient(n)` with the random streams made explicit. -/
def generateDictInefficient (s t : Nat → Nat) (n : Nat) : YDict :=
  generateDictInefficientCore (generateData s t n)

/-- `generateDictEfficient1(n)` with the random streams made explicit. -/
def generateDictEfficient1 (s t : Nat → Nat) (n : Nat) : YDict :=
  generateDictEfficient1Core (generateData s t n)

/-- `generateDictEfficient2(n)` with the random streams made explicit. -/
def generateDictEfficient2 (s t : Nat → Nat) (n : Nat) : Option YDict :=
  generateDictEfficient2Core (generateData s t n)

/-- `generateDictEfficientFor(n)` with the random streams made explicit. -/
def generateDictEfficientFor (s t : Nat → Nat) (n : Nat) : Option YDict :=
  generateDictEfficientForCore (generateData s t n)

/-- Number of records of `journal_year` whose year equals `y` (the
`data_years.count(y)` of the dictionary-comprehension variant). -/
def countYear (journal_year : List JRecord) (y : Int) : Nat :=
  (journal_year.map (fun pair => pair.2)).count y

/-- The canonical frequency table: one entry per year of the key range, in
range order, holding the count of matching records. -/
def canonTable (journal_year : List JRecord) : YDict :=
  yearsRange.map (fun y => (y, countYear journal_year y))

/-- `sum(d.values())`, as used by the notebook's tests. -/
def tableSum (d : YDict) : Nat := (d.map (fun e => e.2)).sum

/-- Equality of two tables as mappings from year to count. -/
def tableEq (d1 d2 : YDict) : Prop := ∀ k, dictGet d1 k = dictGet d2 k

/-- Every record's year lies in the aggregation key range. -/
def allYearsInRange (journal_year : List JRecord) : Prop :=
  ∀ p ∈ journal_year, p.2 ∈ yearsRange

/-- The number of records whose year lies in the aggregation key range. -/
def inRangeCount (journal_year : List JRecord) : Nat :=
  journal_year.countP (fun p => decide (p.2 ∈ yearsRange))

theorem dictGet_dictSet (d : YDict) (k : Int) (v : Nat) (j : Int) :
    dictGet (dictSet d k v) j = if k = j then some v else dictGet d j := by
  induction d with
  | nil => simp [dictSet, dictGet]
  | cons e rest ih =>
    obtain ⟨k2, v2⟩ := e
    by_cases h2 : k2 = k
    · subst h2
      by_cases hj : k2 = j <;> simp [dictSet, dictGet, hj]
    · by_cases hj : k2 = j
      · have hkj : ¬(k = j) := fun h => h2 (hj.trans (Eq.symm h))
        have hjk : ¬(j = k) := fun h => hkj (Eq.symm h)
        simp [dictSet, dictGet, h2, hj, hkj, hjk]
      · simp [dictSet, dictGet, h2, hj, ih]

theorem dictKeys_dictSet (d : YDict) (k : Int) (v v0 : Nat)
    (h : dictGet d k = some v0) : dictKeys (dictSet d k v) = dictKeys d := by
  induction d with
  | nil => simp [dictGet] at h
  | cons e rest ih =>
    obtain ⟨k2, v2⟩ := e
    by_cases h2 : k2 = k
    · subst h2; simp [dictSet, dictKeys]
    · simp only [dictGet, if_neg h2] at h
      simp [dictSet, dictKeys, h2] at ih ⊢
      exact ih h

theorem dictGet_append (d e : YDict) (k : Int) :
    dictGet (d ++ e) k =
      match dictGet d k with
      | some v => some v
      | none => dictGet e k := by
  induction d with
  | nil => simp [dictGet]
  | cons a rest ih =>
    obtain ⟨k2, v2⟩ := a
    by_cases h2 : k2 = k <;> simp [dictGet, h2, ih]

theorem ddAccess_some (d : YDict) (k : Int) (v : Nat) (h : dictGet d k = some v) :
    ddAccess d k = (d, v) := by
  simp [ddAccess, h]

theorem ddAccess_none (d : YDict) (k : Int) (h : dictGet d k = none) :
    ddAccess d k = (d ++ [(k, 0)], 0) := by
  simp [ddAccess, h]

theorem dictGet_map_pair (ys : List Int) (f : Int → Nat) (k : Int) :
    dictGet (ys.map (fun y => (y, f y))) k = if k ∈ ys then some (f k) else none := by
  induction ys with
  | nil => simp [dictGet]
  | cons a ys ih =>
    by_cases h : a = k
    · subst h; simp [dictGet]
    · have hka : ¬(k = a) := fun hh => h (Eq.symm hh)
      simp [dictGet, h, ih, List.mem_cons, hka]

theorem dictKeys_map_pair (ys : List Int) (f : Int → Nat) :
    dictKeys (ys.map (fun y => (y, f y))) = ys := by
  induction ys with
  | nil => rfl
  | cons a ys ih => simp only [List.map_cons, dictKeys] at ih ⊢; rw [ih]

theorem dict_eq_map_of_keys_of_get (d : YDict) (ks : List Int) (f : Int → Nat)
    (hk : dictKeys d = ks) (hn : ks.Nodup) (hl : ∀ k ∈ ks, dictGet d k = some (f k)) :
    d = ks.map (fun k => (k, f k)) := by
  induction d generalizing ks with
  | nil => simp [dictKeys] at hk; simp [hk.symm]
  | cons e rest ih =>
    obtain ⟨k0, v0⟩ := e
    simp only [dictKeys, List.map_cons] at hk
    subst hk
    simp only [List.nodup_cons] at hn
    have h0 : v0 = f k0 := by
      have h1 := hl k0 (by simp)
      simp [dictGet] at h1
      omega
    have hrest : rest = (dictKeys rest).map (fun k => (k, f k)) := by
      refine ih (dictKeys rest) rfl hn.2 ?_
      intro k hkmem
      have hne : k0 ≠ k := by
        intro h; exact hn.1 (h ▸ hkmem)
      have h1 := hl k (List.mem_cons_of_mem _ hkmem)
      simpa [dictGet, hne] using h1
    simp only [List.map_cons]
    rw [h0]
    exact congrArg (fun l => (k0, f k0) :: l) hrest

theorem mem_yearsRange (y : Int) : y ∈ yearsRange ↔ 2000 ≤ y ∧ y ≤ 2018 := by
  simp only [yearsRange, List.mem_map, List.mem_range]
  constructor
  · rintro ⟨i, hi, rfl⟩
    omega
  · rintro ⟨h1, h2⟩
    exact ⟨(y - 2000).toNat, by omega, by omega⟩

theorem nodup_yearsRange : yearsRange.Nodup := by decide

theorem length_yearsRange : yearsRange.length = 19 := by decide

/-- The year stream of a record list (`[pair[1] for pair in journal_year]`). -/
def yearsOf (journal_year : List JRecord) : List Int :=
  journal_year.map (fun pair => pair.2)

/-- Proof-side form of the plain-dict increment loop, on the year stream. -/
def forLoopY (years : List Int) (d : YDict) : Option YDict :=
  match years with
  | [] => some d
  | y :: rest =>
    match dictGet d y with
    | none => none
    | some v => forLoopY rest (dictSet d y (v + 1))

/-- Proof-side form of the defaultdict inner loop of the nested variant. -/
def innerY (year : Int) (years : List Int) (d : YDict) : YDict :=
  years.foldl
    (fun yd p =>
      if year = p then
        let a := ddAccess yd year
        dictSet a.1 year (a.2 + 1)
      else yd)
    d

theorem effForLoop_eq_forLoopY (jy : List JRecord) (d : YDict) :
    effForLoop jy d = forLoopY (yearsOf jy) d := by
  induction jy generalizing d with
  | nil => rfl
  | cons p rest ih =>
    cases h : dictGet d p.2 with
    | none => simp [effForLoop, forLoopY, yearsOf, h]
    | some v => simp [effForLoop, forLoopY, yearsOf, h, ih]

theorem eff2Loop_eq_forLoopY (jy : List JRecord) (d : YDict) :
    eff2Loop jy d = forLoopY (yearsOf jy) d := by
  induction jy generalizing d with
  | nil => rfl
  | cons x rest ih =>
    cases h : dictGet d x.2 with
    | none => simp [eff2Loop, forLoopY, yearsOf, getUpdateValue, h]
    | some v => simp [eff2Loop, forLoopY, yearsOf, getUpdateValue, h, ih]

theorem ineffInner_eq_innerY (year : Int) (jy : List JRecord) (d : YDict) :
    jy.foldl
      (fun yd pair =>
        if year = pair.2 then
          let a := ddAccess yd year
          dictSet a.1 year (a.2 + 1)
        else yd) d
    = innerY year (yearsOf jy) d := by
  induction jy generalizing d with
  | nil => rfl
  | cons p rest ih =>
    simp only [List.foldl_cons, innerY, yearsOf, List.map_cons]
    exact ih _

theorem ineffCore_eq_ineffY (jy : List JRecord) :
    generateDictInefficientCore jy =
      yearsRange.foldl
        (fun yearDict year => innerY year (yearsOf jy) ((ddAccess yearDict year).1)) [] := by
  have h : (fun (yearDict : YDict) (year : Int) =>
      jy.foldl
        (fun yd pair =>
          if year = pair.2 then
            let a := ddAccess yd year
            dictSet a.1 year (a.2 + 1)
          else yd)
        (ddAccess yearDict year).1)
    = (fun (yearDict : YDict) (year : Int) =>
        innerY year (yearsOf jy) ((ddAccess yearDict year).1)) := by
    funext yearDict year
    exact ineffInner_eq_innerY year jy ((ddAccess yearDict year).1)
  unfold generateDictInefficientCore
  rw [h]

theorem dictGet_initDict (k : Int) :
    dictGet initDict k = if k ∈ yearsRange then some 0 else none := by
  have h := dictGet_map_pair yearsRange (fun _ => 0) k
  simpa [initDict] using h

theorem dictKeys_initDict : dictKeys initDict = yearsRange := by
  simpa [initDict] using dictKeys_map_pair yearsRange (fun _ => 0)

theorem forLoopY_ok (ys : List Int) (d : YDict)
    (h : ∀ y ∈ ys, (dictGet d y).isSome = true) :
    ∃ d2, forLoopY ys d = some d2 ∧ dictKeys d2 = dictKeys d ∧
      ∀ k, dictGet d2 k = (dictGet d k).map (fun v => v + ys.count k) := by
  induction ys generalizing d with
  | nil =>
    refine ⟨d, rfl, rfl, ?_⟩
    intro k
    cases dictGet d k <;> simp
  | cons y rest ih =>
    have hy := h y (by simp)
    cases hv : dictGet d y with
    | none => rw [hv] at hy; simp at hy
    | some v =>
      have hrest : ∀ z ∈ rest, (dictGet (dictSet d y (v + 1)) z).isSome = true := by
        intro z hz
        rw [dictGet_dictSet]
        by_cases hzy : y = z
        · simp [hzy]
        · rw [if_neg hzy]
          exact h z (List.mem_cons_of_mem _ hz)
      obtain ⟨d2, hrun, hkeys, hget⟩ := ih (dictSet d y (v + 1)) hrest
      refine ⟨d2, ?_, ?_, ?_⟩
      · simp only [forLoopY, hv]
        exact hrun
      · rw [hkeys]
        exact dictKeys_dictSet d y (v + 1) v hv
      · intro k
        rw [hget k, dictGet_dictSet]
        by_cases hyk : y = k
        · subst hyk
          rw [if_pos rfl, hv]
          simp only [Option.map_some', List.count_cons, Option.some.injEq, beq_self_eq_true,
            if_true]
          omega
        · rw [if_neg hyk]
          have hky : ¬((y : Int) == k) = true := by
            simp [beq_iff_eq]
            exact fun e => hyk e
          cases dictGet d k <;> simp [List.count_cons, hky]

theorem forLoopY_fail (ys : List Int) (d : YDict)
    (h : ∃ y ∈ ys, dictGet d y = none) : forLoopY ys d = none := by
  induction ys generalizing d with
  | nil => simp at h
  | cons y rest ih =>
    obtain ⟨z, hz, hzn⟩ := h
    cases hv : dictGet d y with
    | none => simp [forLoopY, hv]
    | some v =>
      have hzy : z ≠ y := by
        intro e
        rw [e, hv] at hzn
        cases hzn
      have hz2 : z ∈ rest := by
        rcases List.mem_cons.mp hz with h1 | h1
        · exact absurd h1 hzy
        · exact h1
      have hz3 : dictGet (dictSet d y (v + 1)) z = none := by
        rw [dictGet_dictSet, if_neg (fun e => hzy (Eq.symm e))]
        exact hzn
      simp only [forLoopY, hv]
      exact ih _ ⟨z, hz2, hz3⟩

theorem innerY_spec (ys : List Int) (year : Int) (d : YDict) (v : Nat)
    (h : dictGet d year = some v) :
    dictKeys (innerY year ys d) = dictKeys d ∧
      ∀ k, dictGet (innerY year ys d) k =
        if year = k then some (v + ys.count year) else dictGet d k := by
  induction ys generalizing d v with
  | nil =>
    refine ⟨rfl, ?_⟩
    intro k
    by_cases hk : year = k
    · subst hk; simp [innerY, h]
    · simp [innerY, hk]
  | cons p rest ih =>
    by_cases hp : year = p
    · subst hp
      have hstep : innerY year (year :: rest) d = innerY year rest (dictSet d year (v + 1)) := by
        simp only [innerY, List.foldl_cons, ddAccess_some d year v h, if_pos, if_true,
          eq_self_iff_true]
      have h1 : dictGet (dictSet d year (v + 1)) year = some (v + 1) := by
        rw [dictGet_dictSet, if_pos rfl]
      obtain ⟨hk1, hg1⟩ := ih (dictSet d year (v + 1)) (v + 1) h1
      rw [hstep]
      constructor
      · rw [hk1]
        exact dictKeys_dictSet d year (v + 1) v h
      · intro k
        rw [hg1 k]
        by_cases hyk : year = k
        · subst hyk
          rw [if_pos rfl, if_pos rfl]
          simp [List.count_cons]
          omega
        · rw [if_neg hyk, if_neg hyk, dictGet_dictSet, if_neg hyk]
    · have hstep : innerY year (p :: rest) d = innerY year rest d := by
        simp only [innerY, List.foldl_cons, if_neg hp]
      obtain ⟨hk1, hg1⟩ := ih d v h
      rw [hstep]
      refine ⟨hk1, ?_⟩
      intro k
      rw [hg1 k]
      have hcount : (p :: rest).count year = rest.count year := by
        simp [List.count_cons]
        exact fun e => hp (Eq.symm e)
      rw [hcount]

theorem dictKeys_append (d e : YDict) : dictKeys (d ++ e) = dictKeys d ++ dictKeys e := by
  simp [dictKeys]

theorem ineffFold_spec (years ys : List Int) (d : YDict)
    (hnd : years.Nodup) (hfresh : ∀ y ∈ years, dictGet d y = none) :
    dictKeys (years.foldl (fun yearDict year => innerY year ys ((ddAccess yearDict year).1)) d)
        = dictKeys d ++ years ∧
      ∀ k, dictGet
          (years.foldl (fun yearDict year => innerY year ys ((ddAccess yearDict year).1)) d) k
        = if k ∈ years then some (ys.count k) else dictGet d k := by
  induction years generalizing d with
  | nil => simp
  | cons y rest ih =>
    have hdy : dictGet d y = none := hfresh y (by simp)
    have hdd : (ddAccess d y).1 = d ++ [(y, 0)] := by rw [ddAccess_none d y hdy]
    have hget0 : ∀ k, dictGet (d ++ [(y, 0)]) k =
        if y = k then (if dictGet d k = none then some 0 else dictGet d k) else dictGet d k := by
      intro k
      rw [dictGet_append]
      by_cases hyk : y = k
      · subst hyk
        rw [hdy]
        simp [dictGet]
      · cases hdk : dictGet d k
        · simp [dictGet, hyk]
        · simp
    have hgy : dictGet (d ++ [(y, 0)]) y = some 0 := by
      rw [hget0 y, if_pos rfl, hdy]
      simp
    obtain ⟨hik, hig⟩ := innerY_spec ys y (d ++ [(y, 0)]) 0 hgy
    simp only [List.nodup_cons] at hnd
    have hfresh2 : ∀ z ∈ rest, dictGet (innerY y ys (d ++ [(y, 0)])) z = none := by
      intro z hz
      have hzy : ¬(y = z) := by
        intro e
        exact hnd.1 (e ▸ hz)
      rw [hig z, if_neg hzy, hget0 z, if_neg hzy]
      exact hfresh z (List.mem_cons_of_mem _ hz)
    obtain ⟨hok, hog⟩ := ih (innerY y ys (d ++ [(y, 0)])) hnd.2 hfresh2
    have hstep : (y :: rest).foldl
          (fun yearDict year => innerY year ys ((ddAccess yearDict year).1)) d
        = rest.foldl (fun yearDict year => innerY year ys ((ddAccess yearDict year).1))
            (innerY y ys (d ++ [(y, 0)])) := by
      simp only [List.foldl_cons, hdd]
    rw [hstep]
    constructor
    · rw [hok, hik, dictKeys_append]
      simp [dictKeys]
    · intro k
      rw [hog k]
      by_cases hkr : k ∈ rest
      · rw [if_pos hkr, if_pos (List.mem_cons_of_mem _ hkr)]
      · rw [if_neg hkr, hig k]
        by_cases hyk : y = k
        · subst hyk
          rw [if_pos rfl, if_pos (by simp)]
          simp
        · rw [if_neg hyk, hget0 k, if_neg hyk]
          have : ¬(k ∈ y :: rest) := by
            intro hc
            rcases List.mem_cons.mp hc with h1 | h1
            · exact hyk (Eq.symm h1)
            · exact hkr h1
          rw [if_neg this]

theorem ineffCore_canon (jy : List JRecord) :
    generateDictInefficientCore jy = canonTable jy := by
  rw [ineffCore_eq_ineffY]
  obtain ⟨hk, hg⟩ := ineffFold_spec yearsRange (yearsOf jy) [] nodup_yearsRange
    (fun y _ => rfl)
  refine dict_eq_map_of_keys_of_get _ yearsRange (fun k => countYear jy k) ?_
    nodup_yearsRange ?_
  · rw [hk]; rfl
  · intro k hkmem
    rw [hg k, if_pos hkmem]
    rfl

theorem eff1Core_canon (jy : List JRecord) :
    generateDictEfficient1Core jy = canonTable jy := rfl

theorem forCore_canon (jy : List JRecord) (h : allYearsInRange jy) :
    generateDictEfficientForCore jy = some (canonTable jy) := by
  unfold generateDictEfficientForCore
  rw [effForLoop_eq_forLoopY]
  have hpre : ∀ y ∈ yearsOf jy, (dictGet initDict y).isSome = true := by
    intro y hy
    obtain ⟨p, hp, hpy⟩ := List.mem_map.mp hy
    rw [dictGet_initDict, if_pos (hpy ▸ h p hp)]
    rfl
  obtain ⟨d2, hrun, hkeys, hget⟩ := forLoopY_ok (yearsOf jy) initDict hpre
  rw [hrun]
  refine congrArg some ?_
  refine dict_eq_map_of_keys_of_get _ yearsRange (fun k => countYear jy k) ?_
    nodup_yearsRange ?_
  · rw [hkeys, dictKeys_initDict]
  · intro k hkmem
    rw [hget k, dictGet_initDict, if_pos hkmem]
    simp only [Option.map_some', Nat.zero_add]
    rfl

theorem eff2Core_eq_forCore (jy : List JRecord) :
    generateDictEfficient2Core jy = generateDictEfficientForCore jy := by
  unfold generateDictEfficient2Core generateDictEfficientForCore
  rw [eff2Loop_eq_forLoopY, effForLoop_eq_forLoopY]

theorem eff2Core_canon (jy : List JRecord) (h : allYearsInRange jy) :
    generateDictEfficient2Core jy = some (canonTable jy) := by
  rw [eff2Core_eq_forCore]
  exact forCore_canon jy h

theorem forCore_fail (jy : List JRecord) (h : ∃ p ∈ jy, p.2 ∉ yearsRange) :
    generateDictEfficientForCore jy = none := by
  unfold generateDictEfficientForCore
  rw [effForLoop_eq_forLoopY]
  apply forLoopY_fail
  obtain ⟨p, hp, hnot⟩ := h
  refine ⟨p.2, List.mem_map_of_mem _ hp, ?_⟩
  rw [dictGet_initDict, if_neg hnot]

theorem eff2Core_fail (jy : List JRecord) (h : ∃ p ∈ jy, p.2 ∉ yearsRange) :
    generateDictEfficient2Core jy = none := by
  rw [eff2Core_eq_forCore]
  exact forCore_fail jy h

theorem dictGet_canon (jy : List JRecord) (k : Int) :
    dictGet (canonTable jy) k =
      if k ∈ yearsRange then some (countYear jy k) else none := by
  have h := dictGet_map_pair yearsRange (fun y => countYear jy y) k
  simpa [canonTable] using h

theorem dictKeys_canon (jy : List JRecord) : dictKeys (canonTable jy) = yearsRange := by
  simpa [canonTable] using dictKeys_map_pair yearsRange (fun y => countYear jy y)

theorem tableSum_map (ys : List Int) (f : Int → Nat) :
    tableSum (ys.map (fun y => (y, f y))) = (ys.map f).sum := by
  induction ys with
  | nil => rfl
  | cons a ys ih => simp only [List.map_cons, tableSum, List.sum_cons] at ih ⊢; rw [ih]

theorem sum_map_add (ys : List Int) (f g : Int → Nat) :
    (ys.map (fun y => f y + g y)).sum = (ys.map f).sum + (ys.map g).sum := by
  induction ys with
  | nil => rfl
  | cons a ys ih =>
    simp only [List.map_cons, List.sum_cons, ih]
    omega

theorem sum_map_indicator (ys : List Int) (x : Int) (hn : ys.Nodup) :
    (ys.map (fun y => if x = y then 1 else 0)).sum = if x ∈ ys then 1 else 0 := by
  induction ys with
  | nil => simp
  | cons a ys ih =>
    simp only [List.nodup_cons] at hn
    by_cases hxa : x = a
    · subst hxa
      rw [List.map_cons, List.sum_cons, if_pos rfl, ih hn.2, if_neg hn.1,
        if_pos (List.mem_cons_self x ys)]
    · rw [List.map_cons, List.sum_cons, if_neg hxa, ih hn.2]
      have hiff : x ∈ a :: ys ↔ x ∈ ys := by
        simp [List.mem_cons, hxa]
      rw [if_congr hiff rfl rfl]
      omega

theorem countYear_cons (p : JRecord) (jy : List JRecord) (y : Int) :
    countYear (p :: jy) y = countYear jy y + (if p.2 = y then 1 else 0) := by
  simp only [countYear, List.map_cons, List.count_cons, beq_iff_eq]

theorem inRangeCount_cons (p : JRecord) (jy : List JRecord) :
    inRangeCount (p :: jy) = inRangeCount jy + (if p.2 ∈ yearsRange then 1 else 0) := by
  simp only [inRangeCount, List.countP_cons, decide_eq_true_eq]

theorem sum_counts_eq_inRangeCount (jy : List JRecord) :
    (yearsRange.map (fun y => countYear jy y)).sum = inRangeCount jy := by
  induction jy with
  | nil =>
    have h : ∀ ys : List Int, (ys.map (fun y => countYear ([] : List JRecord) y)).sum = 0 := by
      intro ys
      induction ys with
      | nil => rfl
      | cons a ys ih => simp only [List.map_cons, List.sum_cons, ih]; rfl
    rw [h yearsRange]
    rfl
  | cons p jy ih =>
    have hrw : (fun y => countYear (p :: jy) y)
        = (fun y => countYear jy y + (if p.2 = y then 1 else 0)) := by
      funext y
      exact countYear_cons p jy y
    rw [hrw, sum_map_add, ih, sum_map_indicator yearsRange p.2 nodup_yearsRange,
      inRangeCount_cons]

theorem tableSum_canon (jy : List JRecord) :
    tableSum (canonTable jy) = inRangeCount jy := by
  have h := tableSum_map yearsRange (fun y => countYear jy y)
  rw [show canonTable jy = yearsRange.map (fun y => (y, countYear jy y)) from rfl, h,
    sum_counts_eq_inRangeCount]

theorem inRangeCount_le (jy : List JRecord) : inRangeCount jy ≤ jy.length :=
  List.countP_le_length _

theorem inRangeCount_eq_length (jy : List JRecord) (h : allYearsInRange jy) :
    inRangeCount jy = jy.length := by
  refine List.countP_eq_length.mpr ?_
  intro p hp
  simp only [decide_eq_true_eq]
  exact h p hp

theorem inRangeCount_lt (jy : List JRecord) (h : ∃ p ∈ jy, p.2 ∉ yearsRange) :
    inRangeCount jy < jy.length := by
  obtain ⟨p, hp, hnot⟩ := h
  have hne : inRangeCount jy ≠ jy.length := by
    intro he
    have hall := List.countP_eq_length.mp he p hp
    simp only [decide_eq_true_eq] at hall
    exact hnot hall
  exact Nat.lt_of_le_of_ne (inRangeCount_le jy) hne

theorem length_generateData (s t : Nat → Nat) (n : Nat) :
    (generateData s t n).length = n := by
  simp [generateData, List.length_zip, generateJournalNames, generateYears]

theorem year_of_mem_generateData (s t : Nat → Nat) (n : Nat) (p : JRecord)
    (hp : p ∈ generateData s t n) : 2000 ≤ p.2 ∧ p.2 < 2018 := by
  obtain ⟨a, b⟩ := p
  have hb : b ∈ generateYears t n := (List.of_mem_zip hp).2
  simp only [generateYears, List.mem_map, List.mem_range] at hb
  obtain ⟨i, hi, hbe⟩ := hb
  have hm : t i % 18 < 18 := Nat.mod_lt _ (by omega)
  simp only at hbe ⊢
  omega

theorem generateData_allInRange (s t : Nat → Nat) (n : Nat) :
    allYearsInRange (generateData s t n) := by
  intro p hp
  have h := year_of_mem_generateData s t n p hp
  rw [mem_yearsRange]
  omega

theorem randChoiceABCD_mem (r : Nat) :
    randChoiceABCD r = 'A' ∨ randChoiceABCD r = 'B' ∨
      randChoiceABCD r = 'C' ∨ randChoiceABCD r = 'D' := by
  have h : r % 4 = 0 ∨ r % 4 = 1 ∨ r % 4 = 2 ∨ r % 4 = 3 := by omega
  rcases h with h | h | h | h <;> simp [randChoiceABCD, h]

theorem label_of_mem_generateData (s t : Nat → Nat) (n : Nat) (p : JRecord)
    (hp : p ∈ generateData s t n) :
    p.1.length = 3 ∧
      ∀ c ∈ p.1.data, c = 'A' ∨ c = 'B' ∨ c = 'C' ∨ c = 'D' := by
  obtain ⟨a, b⟩ := p
  have ha : a ∈ generateJournalNames s n := (List.of_mem_zip hp).1
  simp only [generateJournalNames, List.mem_map, List.mem_range] at ha
  obtain ⟨i, hi, hae⟩ := ha
  constructor
  · rw [← hae]
    rfl
  · intro c hc
    rw [← hae] at hc
    simp only [String.data] at hc
    obtain ⟨j, hj, hce⟩ := List.mem_map.mp hc
    rw [← hce]
    exact randChoiceABCD_mem (s (3 * i + j))

theorem eff2Core_eq_some_eff1 (jy : List JRecord) (h : allYearsInRange jy) :
    generateDictEfficient2Core jy = some (generateDictEfficient1Core jy) := by
  rw [eff2Core_canon jy h, eff1Core_canon]

theorem forCore_eq_some_eff1 (jy : List JRecord) (h : allYearsInRange jy) :
    generateDictEfficientForCore jy = some (generateDictEfficient1Core jy) := by
  rw [forCore_canon jy h, eff1Core_canon]

/-- Claim C1 (amended).  For every record sequence and every year `y` in the
key range 2000..2018, the defaultdict variant and the dictionary-comprehension
variant store at key `y` exactly the number of records whose year is `y`; the
two plain-dict variants return the very same table whenever every record year
lies in the key range (on other inputs they raise `KeyError` and return no
table, see the counterexample). -/
theorem claim_C1_amended (jy : List JRecord) (y : Int) (hy : y ∈ yearsRange) :
    dictGet (generateDictInefficientCore jy) y = some (countYear jy y) ∧
    dictGet (generateDictEfficient1Core jy) y = some (countYear jy y) ∧
    (allYearsInRange jy →
      generateDictEfficient2Core jy = some (generateDictEfficient1Core jy) ∧
      generateDictEfficientForCore jy = some (generateDictEfficient1Core jy)) := by
  refine ⟨?_, ?_, fun h => ⟨eff2Core_eq_some_eff1 jy h, forCore_eq_some_eff1 jy h⟩⟩
  · rw [ineffCore_canon, dictGet_canon, if_pos hy]
  · rw [eff1Core_canon, dictGet_canon, if_pos hy]

/-- Claim C1 counterexample.  On the one-record input `[("AAA", 1999)]`, whose
year lies outside 2000..2018, the counting core of `generateDictEfficientFor`
raises `KeyError` (modelled as `none`): it returns no frequency table at all,
so the claimed counting guarantee cannot hold for every variant on every
sequence. -/
theorem claim_C1_counterexample :
    generateDictEfficientForCore [("AAA", 1999)] = none := rfl

/-- Claim C1 witness. -/
theorem claim_C1_witness :
    (2010 : Int) ∈ yearsRange ∧
    dictGet (generateDictInefficientCore [("AAA", 2010)]) 2010
      = some (countYear [("AAA", 2010)] 2010) :=
  ⟨by decide, (claim_C1_amended [("AAA", 2010)] 2010 (by decide)).1⟩

/-- Claim C2.  On any input whose years all lie in 2000..2018, the naive
nested-loop core and the dictionary-comprehension core produce tables equal
as mappings, and the two plain-dict single-pass cores return exactly the
dictionary-comprehension table. -/
theorem claim_C2 (jy : List JRecord) (h : allYearsInRange jy) :
    tableEq (generateDictInefficientCore jy) (generateDictEfficient1Core jy) ∧
    generateDictEfficient2Core jy = some (generateDictEfficient1Core jy) ∧
    generateDictEfficientForCore jy = some (generateDictEfficient1Core jy) := by
  refine ⟨?_, eff2Core_eq_some_eff1 jy h, forCore_eq_some_eff1 jy h⟩
  intro k
  rw [ineffCore_canon, eff1Core_canon]

/-- Claim C2 witness. -/
theorem claim_C2_witness :
    dictGet (generateDictInefficientCore [("BBB", 2001)]) 2001
      = dictGet (generateDictEfficient1Core [("BBB", 2001)]) 2001 ∧
    generateDictEfficient2Core [("BBB", 2001)]
      = some (generateDictEfficient1Core [("BBB", 2001)]) ∧
    generateDictEfficientForCore [("BBB", 2001)]
      = some (generateDictEfficient1Core [("BBB", 2001)]) := by
  have h := claim_C2 [("BBB", 2001)]
    (by show ∀ p ∈ ([("BBB", 2001)] : List JRecord), p.2 ∈ yearsRange; decide)
  exact ⟨h.1 2001, h.2.1, h.2.2⟩

/-- Claim C3 (amended).  On any input containing a record with a year outside
2000..2018, the defaultdict variant and the dictionary-comprehension variant
complete without error, the out-of-range record is excluded from every
bucket, and the sum of the table values is strictly below the input length;
the two plain-dict variants instead raise `KeyError` on such input (modelled
as `none`), see the counterexample. -/
theorem claim_C3_amended (jy : List JRecord) (h : ∃ p ∈ jy, p.2 ∉ yearsRange) :
    tableSum (generateDictInefficientCore jy) < jy.length ∧
    tableSum (generateDictEfficient1Core jy) < jy.length ∧
    generateDictEfficient2Core jy = none ∧
    generateDictEfficientForCore jy = none := by
  have hlt := inRangeCount_lt jy h
  refine ⟨?_, ?_, eff2Core_fail jy h, forCore_fail jy h⟩
  · rw [ineffCore_canon, tableSum_canon]
    exact hlt
  · rw [eff1Core_canon, tableSum_canon]
    exact hlt

/-- Claim C3 counterexample.  On the one-record input `[("AAA", 2019)]` the
counting core of `generateDictEfficient2` raises `KeyError` (modelled as
`none`) instead of completing without error as the claim requires of every
variant. -/
theorem claim_C3_counterexample :
    generateDictEfficient2Core [("AAA", 2019)] = none := rfl

/-- Claim C3 witness. -/
theorem claim_C3_witness :
    tableSum (generateDictInefficientCore [("AAA", 1980), ("BBB", 2005)])
      < ([("AAA", 1980), ("BBB", 2005)] : List JRecord).length ∧
    tableSum (generateDictEfficient1Core [("AAA", 1980), ("BBB", 2005)])
      < ([("AAA", 1980), ("BBB", 2005)] : List JRecord).length ∧
    generateDictEfficient2Core [("AAA", 1980), ("BBB", 2005)] = none ∧
    generateDictEfficientForCore [("AAA", 1980), ("BBB", 2005)] = none :=
  claim_C3_amended [("AAA", 1980), ("BBB", 2005)] ⟨("AAA", 1980), by decide, by decide⟩

/-- Claim C4.  For every record count `n` and every outcome of the random
draws, aggregating the `n` generated records yields a table whose values sum
to exactly `n`, for each variant (the generated years 2000..2017 all lie in
the key range 2000..2018, so no record is dropped and no `KeyError` occurs). -/
theorem claim_C4 (s t : Nat → Nat) (n : Nat) :
    tableSum (generateDictInefficient s t n) = n ∧
    tableSum (generateDictEfficient1 s t n) = n ∧
    generateDictEfficient2 s t n = some (generateDictEfficient1 s t n) ∧
    generateDictEfficientFor s t n = some (generateDictEfficient1 s t n) := by
  have hall := generateData_allInRange s t n
  have hsum : inRangeCount (generateData s t n) = n := by
    rw [inRangeCount_eq_length _ hall, length_generateData]
  refine ⟨?_, ?_, ?_, ?_⟩
  · unfold generateDictInefficient
    rw [ineffCore_canon, tableSum_canon, hsum]
  · unfold generateDictEfficient1
    rw [eff1Core_canon, tableSum_canon, hsum]
  · unfold generateDictEfficient2 generateDictEfficient1
    exact eff2Core_eq_some_eff1 _ hall
  · unfold generateDictEfficientFor generateDictEfficient1
    exact forCore_eq_some_eff1 _ hall

/-- Claim C5 (amended).  For every input sequence, the defaultdict variant and
the dictionary-comprehension variant return a table whose key list is exactly
the 19 years 2000..2018 (each exactly once, in range order) and whose values
sum to the number of in-range records; the two plain-dict variants return the
very same table as the dictionary-comprehension variant whenever every record
year is in range, and raise `KeyError` otherwise (see the counterexample). -/
theorem claim_C5_amended (jy : List JRecord) :
    dictKeys (generateDictInefficientCore jy) = yearsRange ∧
    dictKeys (generateDictEfficient1Core jy) = yearsRange ∧
    yearsRange.length = 19 ∧
    yearsRange.Nodup ∧
    tableSum (generateDictInefficientCore jy) = inRangeCount jy ∧
    tableSum (generateDictEfficient1Core jy) = inRangeCount jy ∧
    (allYearsInRange jy →
      generateDictEfficient2Core jy = some (generateDictEfficient1Core jy) ∧
      generateDictEfficientForCore jy = some (generateDictEfficient1Core jy)) := by
  refine ⟨?_, ?_, by decide, by decide, ?_, ?_,
    fun h => ⟨eff2Core_eq_some_eff1 jy h, forCore_eq_some_eff1 jy h⟩⟩
  · rw [ineffCore_canon]
    exact dictKeys_canon jy
  · rw [eff1Core_canon]
    exact dictKeys_canon jy
  · rw [ineffCore_canon, tableSum_canon]
  · rw [eff1Core_canon, tableSum_canon]

/-- Claim C5 counterexample.  On the one-record input `[("BBB", 2019)]` the
counting core of `generateDictEfficientFor` raises `KeyError` (modelled as
`none`) and returns no table, so the claimed table shape cannot hold for
every variant on every input sequence. -/
theorem claim_C5_counterexample :
    generateDictEfficientForCore [("BBB", 2019)] = none := rfl

/-- Claim C5 witness (the empty input, `n = 0`). -/
theorem claim_C5_witness :
    dictKeys (generateDictInefficientCore []) = yearsRange ∧
    tableSum (generateDictInefficientCore []) = inRangeCount [] ∧
    generateDictEfficientForCore [] = some (generateDictEfficient1Core []) := by
  have h := claim_C5_amended []
  refine ⟨h.1, h.2.2.2.2.1, ?_⟩
  exact (h.2.2.2.2.2.2 (by show ∀ p ∈ ([] : List JRecord), p.2 ∈ yearsRange; decide)).2

/-- Claim C6.  For every count `n` and every outcome of the random draws,
`generateData` yields exactly `n` pairs; every label is a string of exactly 3
characters drawn from the capitals A, B, C, D, and every year `y` satisfies
`2000 ≤ y < 2018` (the upper bound 2018 is excluded by generation). -/
theorem claim_C6 (s t : Nat → Nat) (n : Nat) :
    (generateData s t n).length = n ∧
    ∀ p ∈ generateData s t n,
      p.1.length = 3 ∧
      (∀ c ∈ p.1.data, c = 'A' ∨ c = 'B' ∨ c = 'C' ∨ c = 'D') ∧
      2000 ≤ p.2 ∧ p.2 < 2018 := by
  refine ⟨length_generateData s t n, ?_⟩
  intro p hp
  obtain ⟨hl, hc⟩ := label_of_mem_generateData s t n p hp
  obtain ⟨h1, h2⟩ := year_of_mem_generateData s t n p hp
  exact ⟨hl, hc, h1, h2⟩

/-- Claim C6 witness (the all-zero random streams, one record). -/
theorem claim_C6_witness :
    (generateData (fun _ => 0) (fun _ => 0) 1).length = 1 ∧
    ("AAA" : String).length = 3 ∧ (2000 : Int) ≤ 2000 ∧ (2000 : Int) < 2018 := by
  have h := claim_C6 (fun _ => 0) (fun _ => 0) 1
  have hm : (("AAA", (2000 : Int)) : JRecord) ∈ generateData (fun _ => 0) (fun _ => 0) 1 := by
    decide
  have h2 := h.2 ("AAA", 2000) hm
  exact ⟨h.1, h2.1, h2.2.2.1, h2.2.2.2⟩

/-- Claim C7.  On the fixed three-record input
`[("AAA", 2005), ("BBB", 2005), ("CCC", 2008)]`, every variant yields the
table whose values sum to 3, with value 2 at key 2005, value 1 at key 2008,
and value 0 at each of the other 16 keys of the range 2000..2018. -/
theorem claim_C7 :
    tableSum (generateDictInefficientCore
      [("AAA", 2005), ("BBB", 2005), ("CCC", 2008)]) = 3 ∧
    dictGet (generateDictInefficientCore
      [("AAA", 2005), ("BBB", 2005), ("CCC", 2008)]) 2005 = some 2 ∧
    dictGet (generateDictInefficientCore
      [("AAA", 2005), ("BBB", 2005), ("CCC", 2008)]) 2008 = some 1 ∧
    (∀ y ∈ yearsRange, y ≠ 2005 → y ≠ 2008 →
      dictGet (generateDictInefficientCore
        [("AAA", 2005), ("BBB", 2005), ("CCC", 2008)]) y = some 0) ∧
    generateDictEfficient1Core [("AAA", 2005), ("BBB", 2005), ("CCC", 2008)]
      = generateDictInefficientCore [("AAA", 2005), ("BBB", 2005), ("CCC", 2008)] ∧
    generateDictEfficient2Core [("AAA", 2005), ("BBB", 2005), ("CCC", 2008)]
      = some (generateDictInefficientCore [("AAA", 2005), ("BBB", 2005), ("CCC", 2008)]) ∧
    generateDictEfficientForCore [("AAA", 2005), ("BBB", 2005), ("CCC", 2008)]
      = some (generateDictInefficientCore [("AAA", 2005), ("BBB", 2005), ("CCC", 2008)]) := by
  decide

/-- Claim C9.  The label field has no influence: two inputs of equal length
whose year components agree position by position produce identical results in
every variant. -/
theorem claim_C9 (l1 l2 : List JRecord)
    (h : l1.map (fun p => p.2) = l2.map (fun p => p.2)) :
    generateDictInefficientCore l1 = generateDictInefficientCore l2 ∧
    generateDictEfficient1Core l1 = generateDictEfficient1Core l2 ∧
    generateDictEfficient2Core l1 = generateDictEfficient2Core l2 ∧
    generateDictEfficientForCore l1 = generateDictEfficientForCore l2 := by
  have hy : yearsOf l1 = yearsOf l2 := h
  refine ⟨?_, ?_, ?_, ?_⟩
  · rw [ineffCore_eq_ineffY l1, ineffCore_eq_ineffY l2]
    simp only [hy]
  · simp only [generateDictEfficient1Core]
    simp only [show l1.map (fun pair => pair.2) = l2.map (fun pair => pair.2) from h]
  · unfold generateDictEfficient2Core
    rw [eff2Loop_eq_forLoopY, eff2Loop_eq_forLoopY, hy]
  · unfold generateDictEfficientForCore
    rw [effForLoop_eq_forLoopY, effForLoop_eq_forLoopY, hy]

/-- Claim C9 witness (same years, different labels). -/
theorem claim_C9_witness :
    generateDictInefficientCore [("AAA", 2003)]
      = generateDictInefficientCore [("QQQ", 2003)] ∧
    generateDictEfficient1Core [("AAA", 2003)]
      = generateDictEfficient1Core [("QQQ", 2003)] ∧
    generateDictEfficient2Core [("AAA", 2003)]
      = generateDictEfficient2Core [("QQQ", 2003)] ∧
    generateDictEfficientForCore [("AAA", 2003)]
      = generateDictEfficientForCore [("QQQ", 2003)] :=
  claim_C9 [("AAA", 2003)] [("QQQ", 2003)] (by decide)

/-- Claim C10.  One step of `generateDictEfficient2` on a record `x` whose
year is a key of `yearDict` holding value `v`: `getUpdateValue` returns the
one-entry dict `{year: v+1}`, and applying the update (`dictSet`) stores
`v + 1` at `x`'s year while every other key keeps its value and the key list
is unchanged. -/
theorem claim_C10 (x : JRecord) (yearDict : YDict) (v : Nat)
    (h : dictGet yearDict x.2 = some v) :
    getUpdateValue x yearDict = some (x.2, v + 1) ∧
    dictGet (dictSet yearDict x.2 (v + 1)) x.2 = some (v + 1) ∧
    dictKeys (dictSet yearDict x.2 (v + 1)) = dictKeys yearDict ∧
    ∀ k, k ≠ x.2 → dictGet (dictSet yearDict x.2 (v + 1)) k = dictGet yearDict k := by
  refine ⟨?_, ?_, dictKeys_dictSet yearDict x.2 (v + 1) v h, ?_⟩
  · unfold getUpdateValue
    rw [h]
  · rw [dictGet_dictSet, if_pos rfl]
  · intro k hk
    rw [dictGet_dictSet, if_neg (fun e => hk (Eq.symm e))]

/-- Claim C10 witness (the fresh table, a record with year 2000, frame checked
at key 2005). -/
theorem claim_C10_witness :
    getUpdateValue ("AAA", 2000) initDict = some (2000, 0 + 1) ∧
    dictGet (dictSet initDict 2000 (0 + 1)) 2000 = some (0 + 1) ∧
    dictKeys (dictSet initDict 2000 (0 + 1)) = dictKeys initDict ∧
    dictGet (dictSet initDict 2000 (0 + 1)) 2005 = dictGet initDict 2005 := by
  have h := claim_C10 ("AAA", 2000) initDict 0 (by decide)
  exact ⟨h.1, h.2.1, h.2.2.1, h.2.2.2 2005 (by decide)⟩
